import Mathlib

/-!
Verification of the ShiftLab Pro service-order pricing and stock logic.

The order form (TrocaFormPage) keeps every numeric field as a string and
coerces it with the JavaScript pattern `Number(x) || 0` before computing the
live total.  We embed a coerced field as `Option ℚ`: `none` models a
non-numeric entry (JavaScript `NaN`), `some q` models a finite numeric value.
Monetary values and quantities are embedded as exact rationals.
-/

namespace ShiftLab

/-- Embedding of the JavaScript coercion `Number(x) || 0`: a `NaN` field
(`none`) collapses to `0`, a numeric field keeps its value (`Number(x) || 0`
also sends `0` to `0`, which agrees with the `some 0` case). -/
def numOr0 : Option ℚ → ℚ
  | none => 0
  | some q => q

/-- One part line of the order form (source: interface ItemPeca in the
TrocaFormPage file): a part id kept as a raw string plus the two numeric
fields after coercion. -/
structure ItemPeca where
  peca_id : String
  quantidade : Option ℚ
  valor_unitario : Option ℚ

/-- The numeric fields of the order form that enter the live total
(source: FormData plus the itensPecas state in TrocaFormPage). -/
structure TrocaForm where
  valor_oleo : Option ℚ
  valor_servico : Option ℚ
  desconto_percentual : Option ℚ
  desconto_valor : Option ℚ
  itensPecas : List ItemPeca

/-- Line 545 of the form page: `subtotalOleo = Number(valorOleo) || 0`. -/
def subtotalOleo (f : TrocaForm) : ℚ := numOr0 f.valor_oleo

/-- Lines 546 to 548: reduce over the part lines, accumulating
quantity times unit price, both coerced. -/
def subtotalPecas (f : TrocaForm) : ℚ :=
  f.itensPecas.foldl
    (fun acc item => acc + numOr0 item.quantidade * numOr0 item.valor_unitario) 0

/-- Line 549: `subtotalProdutos = subtotalOleo + subtotalPecas`. -/
def subtotalProdutos (f : TrocaForm) : ℚ := subtotalOleo f + subtotalPecas f

/-- Line 550: `maoDeObra = Number(valorServico) || 0`. -/
def maoDeObra (f : TrocaForm) : ℚ := numOr0 f.valor_servico

/-- Line 551: `subtotalGeral = subtotalProdutos + maoDeObra`. -/
def subtotalGeral (f : TrocaForm) : ℚ := subtotalProdutos f + maoDeObra f

/-- Line 552: `descPerc = subtotalGeral * ((Number(descontoPerc) || 0) / 100)`. -/
def descPerc (f : TrocaForm) : ℚ :=
  subtotalGeral f * (numOr0 f.desconto_percentual / 100)

/-- Line 553: `descVal = Number(descontoVal) || 0`. -/
def descVal (f : TrocaForm) : ℚ := numOr0 f.desconto_valor

/-- Line 554: `valorTotal = Math.max(0, subtotalGeral - descPerc - descVal)`. -/
def valorTotal (f : TrocaForm) : ℚ :=
  max 0 (subtotalGeral f - descPerc f - descVal f)

/-- Written from the specification text, for comparison with the code:
`productsSubtotal` is the oil subtotal plus the sum over part lines of
quantity times unit price, `percentDiscountValue` is discountPercent/100 of
the gross total, and the total is
`max(0, productsSubtotal + serviceFee - percentDiscountValue - discountAmount)`. -/
def specTotal (oilSubtotal : ℚ) (partLines : List (ℚ × ℚ))
    (serviceFee discountPercent discountAmount : ℚ) : ℚ :=
  let productsSubtotal := oilSubtotal + (partLines.map (fun l => l.1 * l.2)).sum
  let grossTotal := productsSubtotal + serviceFee
  let percentDiscountValue := grossTotal * discountPercent / 100
  max 0 (productsSubtotal + serviceFee - percentDiscountValue - discountAmount)

/-- Folding an addition over a list equals the starting value plus the sum of
the mapped list. -/
theorem foldl_add_map {α : Type} (g : α → ℚ) (l : List α) (a : ℚ) :
    l.foldl (fun acc x => acc + g x) a = a + (l.map g).sum := by
  induction l generalizing a with
  | nil => simp
  | cons x xs ih => simp [List.foldl_cons, ih]; ring

theorem subtotalPecas_eq_sum (f : TrocaForm) :
    subtotalPecas f =
      (f.itensPecas.map
        (fun it => numOr0 it.quantidade * numOr0 it.valor_unitario)).sum := by
  have h := foldl_add_map
    (fun it : ItemPeca => numOr0 it.quantidade * numOr0 it.valor_unitario)
    f.itensPecas 0
  simpa [subtotalPecas] using h

/-- C1: the live total computed by the form equals the formula of the
specification: max of zero and products subtotal plus service fee minus the
percent discount on the gross total minus the flat discount. -/
theorem C1_total_matches_spec (f : TrocaForm) :
    valorTotal f =
      specTotal (numOr0 f.valor_oleo)
        (f.itensPecas.map (fun it => (numOr0 it.quantidade, numOr0 it.valor_unitario)))
        (numOr0 f.valor_servico) (numOr0 f.desconto_percentual)
        (numOr0 f.desconto_valor) := by
  have hsum : subtotalPecas f =
      ((f.itensPecas.map
          (fun it => (numOr0 it.quantidade, numOr0 it.valor_unitario))).map
        (fun l : ℚ × ℚ => l.1 * l.2)).sum := by
    rw [subtotalPecas_eq_sum, List.map_map]
    rfl
  simp only [valorTotal, specTotal, subtotalGeral, subtotalProdutos, subtotalOleo,
    maoDeObra, descPerc, descVal, hsum, mul_div_assoc]

/-- Concrete order form with a gross total of 100, a 50 percent discount and
a flat discount of 1000000 (the example of the specification). -/
def exC2 : TrocaForm :=
  { valor_oleo := some 100
    valor_servico := some 0
    desconto_percentual := some 50
    desconto_valor := some 1000000
    itensPecas := [] }

/-- C2: the live total is never negative; whenever the combined discounts
reach or exceed the gross total the result is exactly zero; and at the
concrete instance discountPercent 50, discountAmount 1000000, grossTotal 100
the total equals zero. -/
theorem C2_total_nonneg_capped :
    (∀ f : TrocaForm, 0 ≤ valorTotal f) ∧
    (∀ f : TrocaForm,
      subtotalGeral f ≤ descPerc f + descVal f → valorTotal f = 0) ∧
    valorTotal exC2 = 0 := by
  refine ⟨fun f => le_max_left 0 _, fun f h => ?_, by
    norm_num [valorTotal, subtotalGeral, subtotalProdutos, subtotalOleo,
      maoDeObra, subtotalPecas, descPerc, descVal, exC2, numOr0]⟩
  have h2 : subtotalGeral f - descPerc f - descVal f ≤ 0 := by linarith
  simpa [valorTotal] using max_eq_left h2

/-- Witness: the cap hypothesis holds at the concrete example form and the
theorem then gives a zero total there. -/
theorem C2_total_nonneg_capped_witness :
    valorTotal exC2 = 0 :=
  C2_total_nonneg_capped.2.1 exC2 (by
    norm_num [subtotalGeral, subtotalProdutos, subtotalOleo, maoDeObra,
      subtotalPecas, descPerc, descVal, exC2, numOr0])

/-- A field after the zero-collapse the form applies to empty or non-numeric
entries: `none` (NaN) becomes the number zero, numbers stay. -/
def zeroOpt : Option ℚ → Option ℚ
  | none => some 0
  | some q => some q

def zeroItem (it : ItemPeca) : ItemPeca :=
  { it with quantidade := zeroOpt it.quantidade,
            valor_unitario := zeroOpt it.valor_unitario }

def zeroForm (f : TrocaForm) : TrocaForm :=
  { valor_oleo := zeroOpt f.valor_oleo
    valor_servico := zeroOpt f.valor_servico
    desconto_percentual := zeroOpt f.desconto_percentual
    desconto_valor := zeroOpt f.desconto_valor
    itensPecas := f.itensPecas.map zeroItem }

theorem numOr0_zeroOpt (x : Option ℚ) : numOr0 (zeroOpt x) = numOr0 x := by
  cases x <;> rfl

/-- Supporting fact about the rational fragment of the form computation: the
total is never negative, and replacing every empty or non-numeric field by
zero does not change it, so such entries act exactly as zero there. -/
theorem valorTotal_zeroForm_invariant (f : TrocaForm) :
    0 ≤ valorTotal f ∧ valorTotal (zeroForm f) = valorTotal f := by
  constructor
  · exact le_max_left 0 _
  · have hc : ((fun it : ItemPeca => numOr0 it.quantidade * numOr0 it.valor_unitario)
        ∘ zeroItem) = fun it => numOr0 it.quantidade * numOr0 it.valor_unitario := by
      funext it
      simp [zeroItem, numOr0_zeroOpt]
    have hsum : subtotalPecas (zeroForm f) = subtotalPecas f := by
      rw [subtotalPecas_eq_sum, subtotalPecas_eq_sum]
      simp only [zeroForm, List.map_map, hc]
    simp only [valorTotal, subtotalGeral, subtotalProdutos, subtotalOleo,
      maoDeObra, descPerc, descVal]
    rw [hsum]
    simp [zeroForm, numOr0_zeroOpt]

/-- Rounding to the money scale of two decimal places (half up on ties),
as the specification prescribes for the percent discount value. -/
def roundCents (q : ℚ) : ℚ := ((round (q * 100) : ℤ) : ℚ) / 100

/-- Concrete order form: oil 10.01, a 10 percent discount and nothing else.
The exact percent discount value is 1.001, which is not a whole number of
cents. -/
def exC6 : TrocaForm :=
  { valor_oleo := some (1001 / 100)
    valor_servico := some 0
    desconto_percentual := some 10
    desconto_valor := some 0
    itensPecas := [] }

/-- C6 counterexample: the percent discount value the form subtracts is not
rounded to the money scale: at gross total 10.01 and discount 10 percent the
code subtracts 1.001 while rounding to cents would give 1.00. -/
theorem C6_counterexample :
    descPerc exC6 ≠
      roundCents (subtotalGeral exC6 * numOr0 exC6.desconto_percentual / 100) := by
  have h1 : descPerc exC6 = 1001 / 1000 := by
    norm_num [descPerc, subtotalGeral, subtotalProdutos, subtotalOleo,
      maoDeObra, subtotalPecas, exC6, numOr0]
  have h2 : subtotalGeral exC6 * numOr0 exC6.desconto_percentual / 100
      = 1001 / 1000 := by
    norm_num [subtotalGeral, subtotalProdutos, subtotalOleo, maoDeObra,
      subtotalPecas, exC6, numOr0]
  rw [h1, h2]
  norm_num [roundCents, round_eq]

/-- C6 amended: the form combines monetary values as exact unrounded numbers:
the percent discount value equals grossTotal times discountPercent over 100
with no rounding to the money scale, and it can be a non-integer number of
minor units, so the computation is not carried out on an integer count of
cents. -/
theorem C6_amended_unrounded :
    (∀ f : TrocaForm,
      descPerc f = subtotalGeral f * numOr0 f.desconto_percentual / 100) ∧
    (∀ n : ℤ, (n : ℚ) ≠ descPerc exC6 * 100) := by
  constructor
  · intro f
    rw [descPerc, mul_div_assoc]
  · intro n h
    have h1 : descPerc exC6 * 100 = 1001 / 10 := by
      norm_num [descPerc, subtotalGeral, subtotalProdutos, subtotalOleo,
        maoDeObra, subtotalPecas, exC6, numOr0]
    rw [h1] at h
    have h2 : (n : ℚ) * 10 = 1001 := by rw [h]; norm_num
    have h3 : n * 10 = 1001 := by exact_mod_cast h2
    omega

/-- Modelled from the spec: catalog stock, one quantity per catalog item id.
The backend Stock Ledger is not part of the shown sources; only the client
that drives it is (useDeleteTroca and the delete dialog promising that the
stock of the oil and the parts will be returned). -/
def Stock := ℕ → ℚ

/-- Modelled from the spec: one line of a reserve or release request,
a catalog item id and a quantity. -/
structure ReserveLine where
  catalogItemId : ℕ
  quantity : ℚ

/-- Modelled from the spec: the failure a reservation can surface. -/
inductive StockError
  | insufficientStock
deriving DecidableEq

/-- Pointwise update of one catalog item and its stock quantity. -/
def updateStock (s : Stock) (i : ℕ) (q : ℚ) : Stock :=
  fun j => if j = i then q else s j

/-- Modelled from the spec: walk the batch, for each item checking
`stockQuantity >= quantity` and decrementing; `none` when any item is
insufficient. -/
def reserveGo : List ReserveLine → Stock → Option Stock
  | [], s => some s
  | l :: ls, s =>
      if l.quantity ≤ s l.catalogItemId then
        reserveGo ls
          (updateStock s l.catalogItemId (s l.catalogItemId - l.quantity))
      else none

/-- Modelled from the spec: `reserve` returns the debited stock, or
`InsufficientStock` with the whole batch rolled back. -/
def reserve (ls : List ReserveLine) (s : Stock) : Except StockError Stock :=
  match reserveGo ls s with
  | some s2 => .ok s2
  | none => .error .insufficientStock

/-- Modelled from the spec: `reserve` seen together with the stock it leaves
behind; on failure the whole batch is rolled back, so the original stock is
returned untouched. -/
def reserveRun (ls : List ReserveLine) (s : Stock) :
    Except StockError Unit × Stock :=
  match reserveGo ls s with
  | some s2 => (.ok (), s2)
  | none => (.error .insufficientStock, s)

/-- Modelled from the spec: `release` increments stock and cannot fail. -/
def release (ls : List ReserveLine) (s : Stock) : Stock :=
  ls.foldl
    (fun acc l => updateStock acc l.catalogItemId (acc l.catalogItemId + l.quantity))
    s

/-- The total quantity a batch requests for one catalog item. -/
def demand (ls : List ReserveLine) (i : ℕ) : ℚ :=
  (ls.map (fun l => if l.catalogItemId = i then l.quantity else 0)).sum

theorem updateStock_apply (s : Stock) (i : ℕ) (q : ℚ) (j : ℕ) :
    updateStock s i q j = if j = i then q else s j := rfl

theorem reserveGo_some_apply :
    ∀ (ls : List ReserveLine) (s s2 : Stock), reserveGo ls s = some s2 →
      ∀ i, s2 i = s i - demand ls i := by
  intro ls
  induction ls with
  | nil =>
    intro s s2 h i
    simp only [reserveGo, Option.some_inj] at h
    simp [← h, demand]
  | cons l ls ih =>
    intro s s2 h i
    simp only [reserveGo] at h
    by_cases hc : l.quantity ≤ s l.catalogItemId
    · rw [if_pos hc] at h
      have h2 := ih _ _ h i
      rw [h2, updateStock_apply]
      simp only [demand, List.map_cons, List.sum_cons]
      by_cases hi : i = l.catalogItemId
      · subst hi
        simp
        ring
      · rw [if_neg hi, if_neg (fun he => hi he.symm)]
        ring_nf
    · rw [if_neg hc] at h
      exact absurd h (by simp)

theorem release_apply :
    ∀ (ls : List ReserveLine) (s : Stock) (i : ℕ),
      release ls s i = s i + demand ls i := by
  intro ls
  induction ls with
  | nil => intro s i; simp [release, demand]
  | cons l ls ih =>
    intro s i
    simp only [release, List.foldl_cons] at ih ⊢
    rw [ih, updateStock_apply]
    simp only [demand, List.map_cons, List.sum_cons]
    by_cases hi : i = l.catalogItemId
    · subst hi
      simp
      ring
    · rw [if_neg hi, if_neg (fun he => hi he.symm)]
      ring_nf

/-- C3: creating an order (reserving the quantities of its lines) and then
voiding it (releasing the same lines) restores the stock of every catalog
item to exactly its value before the create. -/
theorem C3_void_after_create (ls : List ReserveLine) (s s2 : Stock)
    (h : reserve ls s = .ok s2) :
    ∀ i, release ls s2 i = s i := by
  intro i
  have hgo : reserveGo ls s = some s2 := by
    unfold reserve at h
    cases hr : reserveGo ls s with
    | some t => rw [hr] at h; cases h; rfl
    | none => rw [hr] at h; cases h
  rw [release_apply, reserveGo_some_apply ls s s2 hgo i]
  ring

/-- Concrete create for the C3 witness: three litres of item 0 and two units
of item 1, out of ten of each. -/
def exC3lines : List ReserveLine := [⟨0, 3⟩, ⟨1, 2⟩]

def exC3s0 : Stock := fun _ => 10

def exC3s1 : Stock :=
  updateStock (updateStock exC3s0 0 (exC3s0 0 - 3)) 1
    ((updateStock exC3s0 0 (exC3s0 0 - 3)) 1 - 2)

theorem exC3_reserve : reserve exC3lines exC3s0 = .ok exC3s1 := by
  have h3 : (3 : ℚ) ≤ exC3s0 0 := by norm_num [exC3s0]
  have h2 : (2 : ℚ) ≤ (updateStock exC3s0 0 (exC3s0 0 - 3)) 1 := by
    norm_num [updateStock, exC3s0]
  simp only [reserve, reserveGo, exC3lines, if_pos h3, if_pos h2]
  rfl

/-- Witness: voiding the concrete order restores both touched items to ten. -/
theorem C3_void_after_create_witness :
    release exC3lines exC3s1 0 = 10 ∧ release exC3lines exC3s1 1 = 10 := by
  have h0 := C3_void_after_create exC3lines exC3s0 exC3s1 exC3_reserve 0
  have h1 := C3_void_after_create exC3lines exC3s0 exC3s1 exC3_reserve 1
  rw [h0, h1]
  exact ⟨rfl, rfl⟩

/-- While walking a batch of nonnegative requests the stock only goes down,
so a line that exceeds the untouched stock also exceeds the stock at its
turn: the whole walk returns none. -/
theorem reserveGo_eq_none :
    ∀ (ls : List ReserveLine) (s t : Stock),
      (∀ l ∈ ls, 0 ≤ l.quantity) →
      (∀ i, s i ≤ t i) →
      (∃ l ∈ ls, t l.catalogItemId < l.quantity) →
      reserveGo ls s = none := by
  intro ls
  induction ls with
  | nil =>
    intro s t _ _ hex
    obtain ⟨l, hl, _⟩ := hex
    exact absurd hl (List.not_mem_nil l)
  | cons l0 ls ih =>
    intro s t hq hst hex
    by_cases hc : l0.quantity ≤ s l0.catalogItemId
    · obtain ⟨l, hl, hlt⟩ := hex
      have hl' : l ∈ ls := by
        cases List.mem_cons.mp hl with
        | inl he =>
          subst he
          exact absurd (le_trans hc (hst l.catalogItemId)) (not_le.mpr hlt)
        | inr h => exact h
      have hq0 : 0 ≤ l0.quantity := hq l0 (List.mem_cons_self l0 ls)
      have hst' : ∀ i,
          updateStock s l0.catalogItemId (s l0.catalogItemId - l0.quantity) i ≤ t i := by
        intro i
        rw [updateStock_apply]
        by_cases hi : i = l0.catalogItemId
        · rw [if_pos hi, hi]
          calc s l0.catalogItemId - l0.quantity ≤ s l0.catalogItemId := by linarith
            _ ≤ t l0.catalogItemId := hst _
        · rw [if_neg hi]; exact hst i
      have := ih _ t (fun l hm => hq l (List.mem_cons_of_mem _ hm)) hst' ⟨l, hl', hlt⟩
      simp only [reserveGo, if_pos hc]
      exact this
    · simp only [reserveGo, if_neg hc]

/-- C4: when any single line of a reserve batch requests more than the
available stock of its item, the whole operation fails with
InsufficientStock and the stock of every item is left completely unchanged:
the returned stock is the original one, with no partial debit. -/
theorem C4_no_partial_debit (ls : List ReserveLine) (s : Stock)
    (hq : ∀ l ∈ ls, 0 ≤ l.quantity)
    (hex : ∃ l ∈ ls, s l.catalogItemId < l.quantity) :
    reserveRun ls s = (.error .insufficientStock, s) := by
  have h := reserveGo_eq_none ls s s hq (fun _ => le_refl _) hex
  simp [reserveRun, h]

/-- Concrete batch for the C4 witness: item 0 asks five out of ten, item 1
asks one hundred out of ten; the second line is insufficient. -/
def exC4lines : List ReserveLine := [⟨0, 5⟩, ⟨1, 100⟩]

def exC4s0 : Stock := fun _ => 10

/-- Witness: the batch with one insufficient line fails as a whole and the
stock comes back untouched, item 0 included. -/
theorem C4_no_partial_debit_witness :
    reserveRun exC4lines exC4s0 = (.error .insufficientStock, exC4s0) ∧
    exC4s0 0 = 10 :=
  ⟨C4_no_partial_debit exC4lines exC4s0
    (by
      intro l hl
      simp only [exC4lines, List.mem_cons, List.not_mem_nil, or_false] at hl
      rcases hl with h | h <;> rw [h] <;> norm_num)
    ⟨⟨1, 100⟩, by simp [exC4lines], by norm_num [exC4s0]⟩,
   rfl⟩

/-- Modelled from the spec: the per-item difference an update applies,
next quantity minus previous quantity. -/
def deltaOf (prev next : List ReserveLine) (i : ℕ) : ℚ :=
  demand next i - demand prev i

/-- The catalog items an update touches: those of the previous and of the
next lines. -/
def touchedItems (prev next : List ReserveLine) : List ℕ :=
  (prev ++ next).map (fun l => l.catalogItemId)

/-- Modelled from the spec: `applyDelta` reserves the positive per-item
deltas and releases the negative ones in one transaction; it fails with
InsufficientStock when some positive delta exceeds the available stock, and
then changes nothing. -/
def applyDelta (prev next : List ReserveLine) (s : Stock) :
    Except StockError Stock :=
  if ∀ i ∈ touchedItems prev next, deltaOf prev next i ≤ s i then
    .ok (fun i => s i - deltaOf prev next i)
  else .error .insufficientStock

theorem applyDelta_ok_apply (prev next : List ReserveLine) (s s2 : Stock)
    (h : applyDelta prev next s = .ok s2) :
    ∀ i, s2 i = s i - deltaOf prev next i := by
  intro i
  unfold applyDelta at h
  by_cases hc : ∀ i ∈ touchedItems prev next, deltaOf prev next i ≤ s i
  · rw [if_pos hc] at h
    cases h
    rfl
  · rw [if_neg hc] at h
    cases h

/-- The original lines of the C5 scenario: one unit of item 0. -/
def c5orig : List ReserveLine := [⟨0, 1⟩]

/-- The alternative lines of the C5 scenario: two units of item 0. -/
def c5new : List ReserveLine := [⟨0, 2⟩]

def c5s0 : Stock := fun _ => 10

def c5s1 : Stock := updateStock c5s0 0 (c5s0 0 - 1)

def c5s2 : Stock := fun i => c5s1 i - deltaOf c5orig c5new i

def c5s3 : Stock := fun i => c5s2 i - deltaOf c5new c5orig i

theorem c5_reserve_eq : reserve c5orig c5s0 = .ok c5s1 := by
  have h1 : (1 : ℚ) ≤ c5s0 0 := by norm_num [c5s0]
  simp only [reserve, reserveGo, c5orig, if_pos h1]
  rfl

theorem c5_delta1_eq : applyDelta c5orig c5new c5s1 = .ok c5s2 := by
  have hc : ∀ i ∈ touchedItems c5orig c5new, deltaOf c5orig c5new i ≤ c5s1 i := by
    intro i hi
    simp only [touchedItems, c5orig, c5new, List.cons_append, List.nil_append,
      List.map_cons, List.map_nil, List.mem_cons, List.not_mem_nil, or_false] at hi
    rcases hi with h | h <;> subst h <;>
      norm_num [deltaOf, demand, c5orig, c5new, c5s1, updateStock, c5s0]
  simp only [applyDelta, if_pos hc]
  rfl

theorem c5_delta2_eq : applyDelta c5new c5orig c5s2 = .ok c5s3 := by
  have hc : ∀ i ∈ touchedItems c5new c5orig, deltaOf c5new c5orig i ≤ c5s2 i := by
    intro i hi
    simp only [touchedItems, c5orig, c5new, List.cons_append, List.nil_append,
      List.map_cons, List.map_nil, List.mem_cons, List.not_mem_nil, or_false] at hi
    rcases hi with h | h <;> subst h <;>
      norm_num [deltaOf, demand, c5orig, c5new, c5s2, c5s1, updateStock, c5s0]
  simp only [applyDelta, if_pos hc]
  rfl

/-- C5 counterexample: with stock 10 of item 0, original lines asking one
unit and alternative lines asking two, the run create, update to the new
lines, update back to the original lines ends with stock 9, not the
pre-create 10: after the run the order still holds its original lines, so
their quantity stays reserved. -/
theorem C5_counterexample :
    reserve c5orig c5s0 = .ok c5s1 ∧
    applyDelta c5orig c5new c5s1 = .ok c5s2 ∧
    applyDelta c5new c5orig c5s2 = .ok c5s3 ∧
    c5s3 0 = 9 ∧ c5s0 0 = 10 ∧ (9 : ℚ) ≠ 10 := by
  refine ⟨c5_reserve_eq, c5_delta1_eq, c5_delta2_eq, ?_, rfl, by norm_num⟩
  norm_num [c5s3, c5s2, c5s1, deltaOf, demand, c5orig, c5new, updateStock, c5s0]

/-- C5 amended: for every order, the sequence create with the original
lines, update to any alternative lines, update back to the original lines
leaves the stock of every catalog item at its post-create value, that is at
its pre-create value minus the demand of the original lines; the two updates
cancel exactly because each applies only the per-item difference of
quantities. -/
theorem C5_update_conservation (orig alt : List ReserveLine)
    (s s1 s2 s3 : Stock)
    (h1 : reserve orig s = .ok s1)
    (h2 : applyDelta orig alt s1 = .ok s2)
    (h3 : applyDelta alt orig s2 = .ok s3) :
    ∀ i, s3 i = s1 i ∧ s3 i = s i - demand orig i := by
  intro i
  have hgo : reserveGo orig s = some s1 := by
    unfold reserve at h1
    cases hr : reserveGo orig s with
    | some t => rw [hr] at h1; cases h1; rfl
    | none => rw [hr] at h1; cases h1
  have e1 := reserveGo_some_apply orig s s1 hgo i
  have e2 := applyDelta_ok_apply orig alt s1 s2 h2 i
  have e3 := applyDelta_ok_apply alt orig s2 s3 h3 i
  constructor
  · rw [e3, e2]
    simp only [deltaOf]
    ring
  · rw [e3, e2, e1]
    simp only [deltaOf]
    ring

/-- Witness: the amended conservation at the concrete C5 run, item 0. -/
theorem C5_update_conservation_witness :
    c5s3 0 = c5s1 0 ∧ c5s3 0 = c5s0 0 - demand c5orig 0 :=
  C5_update_conservation c5orig c5new c5s0 c5s1 c5s2 c5s3
    c5_reserve_eq c5_delta1_eq c5_delta2_eq 0

/-- Modelled from the spec: the failures the Pricing Calculator can surface
before any computation proceeds. -/
inductive PricingError
  | invalidDiscount
  | invalidAmount
deriving DecidableEq

/-- Modelled from the spec: the input of the Pricing Calculator, an oil
subtotal, part lines of quantity and snapshotted unit price, a service fee
and the two discounts. -/
structure PricingInput where
  oilSubtotal : ℚ
  partLines : List (ℚ × ℚ)
  serviceFee : ℚ
  discountPercent : ℚ
  discountAmount : ℚ

/-- Modelled from the spec: the breakdown the Pricing Calculator outputs. -/
structure PricingOutput where
  productsSubtotal : ℚ
  serviceFee : ℚ
  grossTotal : ℚ
  percentDiscountValue : ℚ
  total : ℚ

/-- Some monetary or quantity field of the input is negative. -/
def hasNegativeInput (inp : PricingInput) : Prop :=
  inp.oilSubtotal < 0 ∨ inp.serviceFee < 0 ∨ inp.discountAmount < 0 ∨
    ∃ l ∈ inp.partLines, l.1 < 0 ∨ l.2 < 0

instance (inp : PricingInput) : Decidable (hasNegativeInput inp) := by
  unfold hasNegativeInput
  infer_instance

/-- Modelled from the spec: the backend Pricing Calculator, not part of the
shown sources. It rejects a discount percent outside zero to one hundred
with InvalidDiscount and any negative input with InvalidAmount before
computation proceeds; otherwise it computes the documented breakdown, with
the percent discount value rounded to the money scale. -/
def computePricing (inp : PricingInput) : Except PricingError PricingOutput :=
  if inp.discountPercent < 0 ∨ 100 < inp.discountPercent then
    .error .invalidDiscount
  else if hasNegativeInput inp then
    .error .invalidAmount
  else
    let productsSubtotal :=
      inp.oilSubtotal + (inp.partLines.map (fun l => l.1 * l.2)).sum
    let grossTotal := productsSubtotal + inp.serviceFee
    let percentDiscountValue :=
      roundCents (grossTotal * inp.discountPercent / 100)
    .ok
      { productsSubtotal := productsSubtotal
        serviceFee := inp.serviceFee
        grossTotal := grossTotal
        percentDiscountValue := percentDiscountValue
        total := max 0 (grossTotal - percentDiscountValue - inp.discountAmount) }

/-- C7: whenever the discount percent lies outside zero to one hundred or
any monetary or quantity field is negative, the pricing computation fails
with InvalidDiscount or InvalidAmount and no total is produced. -/
theorem C7_invalid_input_rejected (inp : PricingInput)
    (h : (inp.discountPercent < 0 ∨ 100 < inp.discountPercent) ∨
      hasNegativeInput inp) :
    computePricing inp = .error .invalidDiscount ∨
      computePricing inp = .error .invalidAmount := by
  by_cases hd : inp.discountPercent < 0 ∨ 100 < inp.discountPercent
  · left
    simp only [computePricing, if_pos hd]
  · right
    have hn : hasNegativeInput inp := h.resolve_left hd
    simp only [computePricing, if_neg hd, if_pos hn]

/-- Concrete invalid input for the C7 witness: a 150 percent discount. -/
def exC7 : PricingInput :=
  { oilSubtotal := 50
    partLines := [(2, 20)]
    serviceFee := 30
    discountPercent := 150
    discountAmount := 0 }

/-- Witness: the 150 percent discount input is rejected with one of the two
validation errors. -/
theorem C7_invalid_input_rejected_witness :
    computePricing exC7 = .error .invalidDiscount ∨
      computePricing exC7 = .error .invalidAmount :=
  C7_invalid_input_rejected exC7 (Or.inl (Or.inr (by norm_num [exC7])))

/-- Modelled from the spec: the Stock Ledger serializes concurrent creates
against one catalog item, so their combined effect is that of processing the
requested quantities one after the other: each request checks the remaining
stock and either debits it or fails with InsufficientStock. Returns each
request paired with its outcome, and the final stock. -/
def runCreates : List ℚ → ℚ → List (ℚ × Except StockError Unit) × ℚ
  | [], s => ([], s)
  | q :: qs, s =>
    if q ≤ s then
      let r := runCreates qs (s - q)
      ((q, .ok ()) :: r.1, r.2)
    else
      let r := runCreates qs s
      ((q, .error .insufficientStock) :: r.1, r.2)

/-- The stock debited by the requests that succeeded. -/
def succeededSum (rs : List (ℚ × Except StockError Unit)) : ℚ :=
  (rs.map (fun p => match p.2 with | .ok _ => p.1 | .error _ => 0)).sum

theorem runCreates_final_le :
    ∀ (qs : List ℚ) (s : ℚ), (∀ q ∈ qs, 0 ≤ q) → (runCreates qs s).2 ≤ s := by
  intro qs
  induction qs with
  | nil => intro s _; simp [runCreates]
  | cons q qs ih =>
    intro s hq
    have hq0 : 0 ≤ q := hq q (List.mem_cons_self q qs)
    have hqs : ∀ x ∈ qs, 0 ≤ x := fun x hx => hq x (List.mem_cons_of_mem _ hx)
    by_cases hc : q ≤ s
    · simp only [runCreates, if_pos hc]
      calc (runCreates qs (s - q)).2 ≤ s - q := ih (s - q) hqs
        _ ≤ s := by linarith
    · simp only [runCreates, if_neg hc]
      exact ih s hqs

/-- C9: when several creates against the same oil are serialized by the
ledger, the outcome of the whole group is exact: the final stock is the
initial stock minus the quantities of the succeeding requests and stays
nonnegative, every other request fails with InsufficientStock, and a request
fails only when even the final remaining stock is below its quantity, so
exactly as many succeed as the stock can satisfy. -/
theorem C9_serialized_creates (qs : List ℚ) (s : ℚ)
    (hq : ∀ q ∈ qs, 0 ≤ q) (hs : 0 ≤ s) :
    0 ≤ (runCreates qs s).2 ∧
    (runCreates qs s).2 = s - succeededSum (runCreates qs s).1 ∧
    (∀ p ∈ (runCreates qs s).1,
      p.2 = .ok () ∨ p.2 = .error .insufficientStock) ∧
    (∀ p ∈ (runCreates qs s).1,
      p.2 = .error .insufficientStock → (runCreates qs s).2 < p.1) := by
  induction qs generalizing s with
  | nil =>
    refine ⟨hs, by simp [runCreates, succeededSum], ?_, ?_⟩ <;>
      intro p hp <;> simp [runCreates] at hp
  | cons q qs ih =>
    have hq0 : 0 ≤ q := hq q (List.mem_cons_self q qs)
    have hqs : ∀ x ∈ qs, 0 ≤ x := fun x hx => hq x (List.mem_cons_of_mem _ hx)
    by_cases hc : q ≤ s
    · have hs' : 0 ≤ s - q := by linarith
      obtain ⟨ih1, ih2, ih3, ih4⟩ := ih (s - q) hqs hs'
      refine ⟨?_, ?_, ?_, ?_⟩
      · simpa only [runCreates, if_pos hc] using ih1
      · simp only [runCreates, if_pos hc, succeededSum, List.map_cons,
          List.sum_cons]
        rw [show (runCreates qs (s - q)).2
            = (s - q) - succeededSum (runCreates qs (s - q)).1 from ih2]
        simp only [succeededSum]
        ring
      · intro p hp
        simp only [runCreates, if_pos hc, List.mem_cons] at hp
        rcases hp with h | h
        · left; rw [h]
        · exact ih3 p h
      · intro p hp hf
        simp only [runCreates, if_pos hc, List.mem_cons] at hp
        rcases hp with h | h
        · rw [h] at hf; cases hf
        · simpa only [runCreates, if_pos hc] using ih4 p h hf
    · have hlt : s < q := not_le.mp hc
      obtain ⟨ih1, ih2, ih3, ih4⟩ := ih s hqs hs
      refine ⟨?_, ?_, ?_, ?_⟩
      · simpa only [runCreates, if_neg hc] using ih1
      · simp only [runCreates, if_neg hc, succeededSum, List.map_cons,
          List.sum_cons]
        rw [show (runCreates qs s).2
            = s - succeededSum (runCreates qs s).1 from ih2]
        simp only [succeededSum]
        ring
      · intro p hp
        simp only [runCreates, if_neg hc, List.mem_cons] at hp
        rcases hp with h | h
        · right; rw [h]
        · exact ih3 p h
      · intro p hp hf
        simp only [runCreates, if_neg hc, List.mem_cons] at hp
        rcases hp with h | h
        · have hfin : (runCreates qs s).2 ≤ s := runCreates_final_le qs s hqs
          rw [h]
          simp only [runCreates, if_neg hc]
          linarith
        · simpa only [runCreates, if_neg hc] using ih4 p h hf

/-- Witness: three creates of quantities 3, 4 and 5 against stock 8: the
group result satisfies every clause of the serialization theorem. -/
theorem C9_serialized_creates_witness :
    0 ≤ (runCreates [3, 4, 5] 8).2 ∧
    (runCreates [3, 4, 5] 8).2 = 8 - succeededSum (runCreates [3, 4, 5] 8).1 ∧
    (∀ p ∈ (runCreates [3, 4, 5] 8).1,
      p.2 = .ok () ∨ p.2 = .error .insufficientStock) ∧
    (∀ p ∈ (runCreates [3, 4, 5] 8).1,
      p.2 = .error .insufficientStock → (runCreates [3, 4, 5] 8).2 < p.1) :=
  C9_serialized_creates [3, 4, 5] 8
    (by
      intro q hq
      simp only [List.mem_cons, List.not_mem_nil, or_false] at hq
      rcases hq with h | h | h <;> rw [h] <;> norm_num)
    (by norm_num)

/-- The catalog data carried inside an order item (source: the optional
`peca` field of interface ItemTroca in the troca types file; decimal strings
embedded as exact rationals). -/
structure PecaInfo where
  id : ℕ
  nome : String
  marca : Option String
  unidade : String
  preco_venda : ℚ
  estoque : ℚ

/-- One stored part line of a service order (source: interface ItemTroca):
the quantity, the snapshotted unit price and the line total live on the line
itself, next to an optional view of the referenced catalog part. -/
structure ItemTroca where
  id : ℕ
  peca_id : ℕ
  quantidade : ℚ
  valor_unitario : ℚ
  valor_total : ℚ
  peca : Option PecaInfo

/-- The description the document renderer prints for a part line
(gerarPdfTroca, line 136): catalog name and brand when the view is present,
otherwise a placeholder built from the part id. -/
def pecaNome (item : ItemTroca) : String :=
  match item.peca with
  | some p => p.nome ++ (match p.marca with
      | some m => " (" ++ m ++ ")"
      | none => "")
  | none => "Peça #" ++ toString item.peca_id

/-- The unit label the renderer prints (line 138): the catalog unit when the
view is present, otherwise "un". -/
def pecaUnidade (item : ItemTroca) : String :=
  match item.peca with
  | some p => p.unidade
  | none => "un"

/-- The data the renderer prints for one part row (lines 135 to 141):
description, unit, quantity, the snapshotted unit price and the stored line
total, never a live catalog price. -/
def pecaRow (item : ItemTroca) : String × String × ℚ × ℚ × ℚ :=
  (pecaNome item, pecaUnidade item, item.quantidade, item.valor_unitario,
    item.valor_total)

/-- Modelled from the spec: one persisted order line, part id, quantity and
the unit price snapshotted at creation. The backend that persists orders is
not part of the shown sources. -/
structure OrderLine where
  peca_id : ℕ
  quantidade : ℚ
  valor_unitario : ℚ
deriving DecidableEq

/-- Modelled from the spec: the persisted state, current catalog prices and
the stored orders, each a list of lines. -/
structure ShopState where
  catalogPrice : ℕ → ℚ
  orders : List (List OrderLine)

/-- Modelled from the spec: creating an order resolves each part price from
the catalog at this instant and snapshots it onto the line. -/
def createOrderSnap (parts : List (ℕ × ℚ)) (st : ShopState) : ShopState :=
  { st with
      orders := st.orders ++
        [parts.map (fun pq => ⟨pq.1, pq.2, st.catalogPrice pq.1⟩)] }

/-- Modelled from the spec: a later catalog price change touches only the
catalog, never the stored order lines. -/
def setCatalogPrice (pid : ℕ) (p : ℚ) (st : ShopState) : ShopState :=
  { st with catalogPrice := fun i => if i = pid then p else st.catalogPrice i }

/-- A whole sequence of catalog price changes. -/
def applyPriceChanges : List (ℕ × ℚ) → ShopState → ShopState
  | [], st => st
  | c :: cs, st => applyPriceChanges cs (setCatalogPrice c.1 c.2 st)

theorem applyPriceChanges_orders :
    ∀ (cs : List (ℕ × ℚ)) (st : ShopState),
      (applyPriceChanges cs st).orders = st.orders := by
  intro cs
  induction cs with
  | nil => intro st; rfl
  | cons c cs ih =>
    intro st
    rw [applyPriceChanges, ih]
    rfl

/-- C8: the unit price of a part line is the catalog price captured at order
creation and stays that value afterwards: after a create followed by any
sequence of catalog price changes the stored order still carries, line by
line, the price the catalog had at creation; and the rendered document row
of a line reads only the snapshotted values, so it is identical under any
two live catalog prices. -/
theorem C8_snapshot_price :
    (∀ (st : ShopState) (parts : List (ℕ × ℚ)) (cs : List (ℕ × ℚ)),
      (applyPriceChanges cs (createOrderSnap parts st)).orders.getLast? =
        some (parts.map
          (fun pq => OrderLine.mk pq.1 pq.2 (st.catalogPrice pq.1)))) ∧
    (∀ (item : ItemTroca) (p : PecaInfo) (v1 v2 : ℚ),
      pecaRow { item with peca := some { p with preco_venda := v1 } } =
        pecaRow { item with peca := some { p with preco_venda := v2 } }) := by
  constructor
  · intro st parts cs
    rw [applyPriceChanges_orders]
    simp [createOrderSnap]
  · intro item p v1 v2
    rfl

end ShiftLab
